import Mathlib

/-!
Shallow embedding of the optimizer module of yaff (`yaff/sampling/opt.py`):
the BFGS Hessian model (`BFGSHessianModel`), the trust-region step
`BFGSOptimizer.make_step`, the state roll performed by
`BFGSOptimizer.propagate`, and the conjugate-gradient wrapper
`CGOptimizer.propagate`.

Numbers are modelled as exact rationals.  The only places where the Python
code uses a Euclidean norm (`np.linalg.norm`) are comparisons: the inner-loop
test `radius < trust_radius` and the sign test on
`delta_norm_g = norm(g) - norm(g_old)`.  For `0 ≤ t` one has
`norm v < t ↔ normSq v < t ^ 2`, and `norm g < norm g_old ↔
normSq g < normSq g_old`, so both comparisons are embedded on squares,
keeping every definition computable.  The eigendecomposition produced by
`np.linalg.eigh` is passed to `makeStep` as an explicit pair
`(evals, evecs)`; where a property needs the fact that `eigh` returns
orthonormal eigenvectors, that is an explicit hypothesis.  The componentwise
division `tmp1*evals/(evals**2 + ridge**2)` produces IEEE NaNs exactly when
some denominator `evals[i]**2 + ridge**2` is zero, and a NaN radius makes the
test `radius < trust_radius` false; `subStep` returns `none` in that case and
the loop takes the branch the NaN forces in numpy.  The two unbounded
`while True` loops are modelled with explicit fuel (`none` = fuel
exhausted, no statement is made about that case).  The `ValueError` raised
by `abs(evals[evals!=0.0]).min()` on an empty selection is modelled by
`Crash.emptyEigMin`.  Dimensions are implicitly at least 1 in the Python
code (numpy reductions over empty arrays raise); the max/min folds below
use a base only ever reached for dimension 0.
-/

namespace YaffOpt

/-- Coordinate / gradient vectors: real-valued vectors of dimension n. -/
abbrev Vec (n : ℕ) := Fin n → ℚ

/-- Square matrices of dimension n (the Hessian model and eigenvector matrix). -/
abbrev Mat (n : ℕ) := Fin n → Fin n → ℚ

/-- `np.dot` of two vectors. -/
def dot {n : ℕ} (v w : Vec n) : ℚ := ∑ i, v i * w i

/-- Squared Euclidean norm; `np.linalg.norm v = Real.sqrt (normSq v)`. -/
def normSq {n : ℕ} (v : Vec n) : ℚ := dot v v

/-- `abs(v).max()`.  All folded entries are absolute values, hence
nonnegative, so folding from 0 computes the numpy maximum for n ≥ 1. -/
def amax {n : ℕ} (v : Vec n) : ℚ := (List.ofFn fun i => |v i|).foldr max 0

/-- `abs(H).max()` over all entries of a matrix. -/
def hmax {n : ℕ} (H : Mat n) : ℚ := (List.ofFn fun i => amax (H i)).foldr max 0

/-- `v.min()` (numpy requires n ≥ 1; the default 0 is only reached at n = 0). -/
def vmin {n : ℕ} (v : Vec n) : ℚ := ((List.ofFn v).min?).getD 0

/-- Matrix-vector product `np.dot(M, v)`. -/
def matVec {n : ℕ} (M : Mat n) (v : Vec n) : Vec n := fun i => ∑ j, M i j * v j

/-- `np.dot(M.T, v)`. -/
def matTvec {n : ℕ} (M : Mat n) (v : Vec n) : Vec n := fun i => ∑ j, M j i * v j

/-- `np.identity(size)`: the initial Hessian of `BFGSHessianModel.__init__`. -/
def identityMat (n : ℕ) : Mat n := fun i j => if i = j then 1 else 0

/-- Exact symmetry of a matrix, `H == H.T`. -/
def IsSymmMat {n : ℕ} (H : Mat n) : Prop := ∀ i j, H i j = H j i

/-- `BFGSHessianModel.update(dx, dg)` (opt.py lines 163-180).  `tmp` is
`np.dot(hessian, dx)`; the two guarded early returns leave the matrix
unchanged, otherwise the symmetric rank-2 correction
`H - outer(tmp,tmp)/denom1 + outer(dg,dg)/denom2` is applied elementwise. -/
def update {n : ℕ} (H : Mat n) (dx dg : Vec n) : Mat n :=
  if hmax H * dot dx (matVec H dx) ≤ 1e-5 * amax (matVec H dx) then H
  else if hmax H * dot dg dx ≤ 1e-5 * amax dg then H
  else fun i j =>
    H i j - matVec H dx i * matVec H dx j / dot dx (matVec H dx)
      + dg i * dg j / dot dg dx

/-- The mutable fields of `BFGSOptimizer` read and written by `make_step`
and `propagate`. -/
structure BFGSState (n : ℕ) where
  x_old : Vec n
  f_old : ℚ
  g_old : Vec n
  hessian : Mat n
  trust_radius : ℚ
  small_radius : ℚ
deriving DecidableEq

/-- The unhandled exception path of `make_step`: `abs(evals[evals!=0.0]).min()`
raises `ValueError` when every eigenvalue is exactly zero. -/
inductive Crash where
  | emptyEigMin
deriving DecidableEq

/-- `abs(evals[evals != 0.0]).min()`, `none` when the selection is empty. -/
def smallestNonzeroAbs {n : ℕ} (evals : Vec n) : Option ℚ :=
  (((List.ofFn evals).filter fun a => decide (a ≠ 0)).map abs).min?

/-- One evaluation of `tmp2 = tmp1*evals/(evals**2 + ridge**2)`.  `none`
models the NaN components arising from a zero denominator (which in numpy
poison the radius and make `radius < trust_radius` false). -/
def subStep {n : ℕ} (evals tmp1 : Vec n) (ridge : ℚ) : Option (Vec n) :=
  if ∀ i, evals i ^ 2 + ridge ^ 2 ≠ 0 then
    some fun i => tmp1 i * evals i / (evals i ^ 2 + ridge ^ 2)
  else none

/-- The ridge growth of opt.py lines 307-310: at `ridge == 0.0` exactly, the
smallest nonzero `|eigenvalue|` (a crash when there is none), otherwise
`ridge * 1.2`. -/
def nextRidge {n : ℕ} (evals : Vec n) (ridge : ℚ) : Except Crash ℚ :=
  if ridge = 0 then
    match smallestNonzeroAbs evals with
    | none => .error .emptyEigMin
    | some r => .ok r
  else .ok (ridge * 1.2)

/-- The inner `while True` loop of `make_step` (opt.py lines 295-310):
recompute `tmp2` and its radius at the current ridge, break when
`radius < trust_radius` (on squares: `normSq tmp2 < trust ^ 2`), otherwise
grow the ridge and repeat.  Returns the step in the eigenbasis together with
the ridge at which the loop broke; fuel exhaustion gives `none`. -/
def growRidge {n : ℕ} (evals tmp1 : Vec n) (trust : ℚ) :
    ℕ → ℚ → Option (Except Crash (Vec n × ℚ))
  | 0, _ => none
  | fuel + 1, ridge =>
    match subStep evals tmp1 ridge with
    | some tmp2 =>
      if normSq tmp2 < trust ^ 2 then some (.ok (tmp2, ridge))
      else
        match nextRidge evals ridge with
        | .error e => some (.error e)
        | .ok r => growRidge evals tmp1 trust fuel r
    | none =>
      match nextRidge evals ridge with
      | .error e => some (.error e)
      | .ok r => growRidge evals tmp1 trust fuel r

/-- Outcome of one iteration of the outer trust-radius loop of `make_step`. -/
inductive IterOutcome (n : ℕ) where
  | accepted (x : Vec n) (f : ℚ) (g : Vec n) (s2 : BFGSState n)
  | rejected (s2 : BFGSState n) (ridge2 : ℚ)
  | crashed (e : Crash)
  | stalled
deriving DecidableEq

/-- One iteration of the outer `while True` loop of `make_step` (opt.py lines
293-347): run the inner ridge loop, take the trial step
`x = x_old + np.dot(evecs, tmp2)`, evaluate `(f, g) = fun(x, True)` and apply
the two rejection tests of lines 321 and 334.  A rejection halves
`trust_radius` (the only field the loop body writes); an acceptance grows it
by 1.2.  `delta_norm_g < 0` is embedded on squares as
`normSq g < normSq g_old`. -/
def trustIter {n : ℕ} (fn : Vec n → ℚ × Vec n) (evals : Vec n) (evecs : Mat n)
    (tmp1 : Vec n) (innerFuel : ℕ) (s : BFGSState n) (ridge : ℚ) : IterOutcome n :=
  match growRidge evals tmp1 s.trust_radius innerFuel ridge with
  | none => .stalled
  | some (.error e) => .crashed e
  | some (.ok (tmp2, ridge2)) =>
    if (fn (fun i => s.x_old i + matVec evecs tmp2 i)).1 - s.f_old > 0 ∨
        (s.trust_radius < s.small_radius ∧
          normSq (fn (fun i => s.x_old i + matVec evecs tmp2 i)).2 < normSq s.g_old) then
      .rejected { s with trust_radius := s.trust_radius * 0.5 } ridge2
    else if dot (matVec evecs tmp2) (fn (fun i => s.x_old i + matVec evecs tmp2 i)).2 > 0 then
      .rejected { s with trust_radius := s.trust_radius * 0.5 } ridge2
    else
      .accepted (fun i => s.x_old i + matVec evecs tmp2 i)
        (fn (fun i => s.x_old i + matVec evecs tmp2 i)).1
        (fn (fun i => s.x_old i + matVec evecs tmp2 i)).2
        { s with trust_radius := s.trust_radius * 1.2 }

/-- The value returned by `make_step` (the Python method returns `(x, f, g)`
and mutates `self.trust_radius`).  `state` is the optimizer state at return.
`trust_accept` (the trust radius at the moment of acceptance, before the 1.2
growth) and `rejections` (the number of rejected trial steps in this call)
are ghost observations recorded for the statements below. -/
structure MakeStepOut (n : ℕ) where
  x : Vec n
  f : ℚ
  g : Vec n
  state : BFGSState n
  trust_accept : ℚ
  rejections : ℕ
deriving DecidableEq

/-- The outer `while True` loop of `make_step`, with fuel.  Note that the
ridge is not reinitialized after a rejection: the inner loop resumes from the
ridge reached so far, exactly as in the Python code. -/
def trustLoop {n : ℕ} (fn : Vec n → ℚ × Vec n) (evals : Vec n) (evecs : Mat n)
    (tmp1 : Vec n) (innerFuel : ℕ) :
    ℕ → BFGSState n → ℚ → ℕ → Option (Except Crash (MakeStepOut n))
  | 0, _, _, _ => none
  | fuel + 1, s, ridge, nrej =>
    match trustIter fn evals evecs tmp1 innerFuel s ridge with
    | .accepted x f g s2 => some (.ok ⟨x, f, g, s2, s.trust_radius, nrej⟩)
    | .rejected s2 ridge2 => trustLoop fn evals evecs tmp1 innerFuel fuel s2 ridge2 (nrej + 1)
    | .crashed e => some (.error e)
    | .stalled => none

/-- The initial ridge parameter of `make_step` (opt.py lines 281-286). -/
def initialRidge {n : ℕ} (evals : Vec n) : ℚ :=
  if vmin evals ≤ 0 then |vmin evals| * 1.1 else 0

/-- `BFGSOptimizer.make_step` (opt.py lines 276-347), given the spectrum
`(evals, evecs) = np.linalg.eigh(hessian)` of the stored Hessian model.
`tmp1 = -np.dot(evecs.T, g_old)`. -/
def makeStep {n : ℕ} (fn : Vec n → ℚ × Vec n) (evals : Vec n) (evecs : Mat n)
    (s : BFGSState n) (innerFuel outerFuel : ℕ) :
    Option (Except Crash (MakeStepOut n)) :=
  trustLoop fn evals evecs (fun i => -matTvec evecs s.g_old i) innerFuel outerFuel s
    (initialRidge evals) 0

/-- The state roll of `BFGSOptimizer.propagate` (opt.py lines 263-273): update
the Hessian from `(x - x_old, g - g_old)` and move new to old, given the
`(x, f, g)` accepted by the previous `make_step`. -/
def bfgsPropagateUpdate {n : ℕ} (s : BFGSState n) (x : Vec n) (f : ℚ) (g : Vec n) :
    BFGSState n :=
  { s with
    hessian := update s.hessian (fun i => x i - s.x_old i) (fun i => g i - s.g_old i)
    x_old := x
    f_old := f
    g_old := g }

/-- The field of `CGOptimizer` written by its `propagate`. -/
structure CGState (n : ℕ) where
  x : Vec n
deriving DecidableEq

/-- `CGOptimizer.propagate` (opt.py lines 149-156).  `success` is the value
returned by the external minimizer, `minimizer_x` its current iterate and
`basePropagate` the external `BaseOptimizer.propagate` (convergence refresh +
driver bookkeeping, returning the converged flag).  The result is the state,
the returned boolean (`True` = stop), and a ghost flag recording whether the
convergence refresh of `BaseOptimizer.propagate` ran. -/
def cgPropagate {n : ℕ} (s : CGState n) (success : Bool) (minimizer_x : Vec n)
    (basePropagate : CGState n → CGState n × Bool) : CGState n × Bool × Bool :=
  if success = false then ({ s with x := minimizer_x }, true, false)
  else ((basePropagate { s with x := minimizer_x }).1,
        (basePropagate { s with x := minimizer_x }).2, true)

/-! ### Concrete instances used by witnesses and counterexamples -/

/-- Eigenvalue vector `[1.0]`. -/
def vOne1 : Vec 1 := fun _ => 1

/-- Eigenvalue vector `[0.0]` (all eigenvalues exactly zero). -/
def vZero1 : Vec 1 := fun _ => 0

/-- Eigenvector matrix `[[1.0]]` (orthonormal). -/
def mOne1 : Mat 1 := fun _ _ => 1

/-- `-np.dot(mOne1.T, stateA.g_old)`. -/
def tmp1A : Vec 1 := fun _ => -(1/2)

/-- A concrete optimizer state: `x_old = [0]`, `f_old = 0`, `g_old = [0.5]`,
Hessian `[[1]]`, `trust_radius = 1`, `small_radius = 1e-5`. -/
def stateA : BFGSState 1 :=
  { x_old := fun _ => 0, f_old := 0, g_old := fun _ => 1/2,
    hessian := mOne1, trust_radius := 1, small_radius := 1e-5 }

/-- stateA after one rejection (trust radius halved). -/
def stateAhalf : BFGSState 1 := { stateA with trust_radius := stateA.trust_radius * 0.5 }

/-- An objective whose first trial step is accepted: constant value -1,
constant gradient `[0.25]`. -/
def fnA : Vec 1 → ℚ × Vec 1 := fun _ => (-1, fun _ => 1/4)

/-- The step returned by `makeStep fnA vOne1 mOne1 stateA`: accepted at the
first trial, trust radius grown to 1.2. -/
def resA : MakeStepOut 1 :=
  { x := fun _ => -(1/2), f := -1, g := fun _ => 1/4,
    state := { stateA with trust_radius := 1 * 1.2 }, trust_accept := 1, rejections := 0 }

/-- An objective that raises the energy at the first trial point `x = [-0.5]`
(forcing a rejection) and decreases it elsewhere. -/
def fnR : Vec 1 → ℚ × Vec 1 :=
  fun v => if v 0 = -(1/2) then (1, fun _ => 1/2) else (-1, fun _ => 1/4)

/-- The step returned by `makeStep fnR vOne1 mOne1 stateA`: one rejection
(trust radius halved to 0.5), then acceptance at `x = [-0.25]`; the final
trust radius is `1 * 0.5 * 1.2 = 0.6`, not `1.2 *` the starting value. -/
def resR : MakeStepOut 1 :=
  { x := fun _ => -(1/4), f := -1, g := fun _ => 1/4,
    state := { stateA with trust_radius := 1 * 0.5 * 1.2 },
    trust_accept := 1 * 0.5, rejections := 1 }

/-- stateA with the all-zero Hessian, whose spectrum is `vZero1`. -/
def stateZ : BFGSState 1 := { stateA with hessian := fun _ _ => 0 }

/-- Concrete vectors for the Hessian-update instances. -/
def dx2 : Vec 2 := fun i => if i = 0 then 1 else 0

def dg2 : Vec 2 := fun _ => 1

def dxZero1 : Vec 1 := fun _ => 0

def dxTwo1 : Vec 1 := fun _ => 2

def dgThree1 : Vec 1 := fun _ => 3

def vNegTwo1 : Vec 1 := fun _ => -2

/-! ### Theorems -/

theorem identityMat_isSymm (n : ℕ) : IsSymmMat (identityMat n) := by
  intro i j
  unfold identityMat
  by_cases h : i = j
  · rw [h]
  · rw [if_neg h, if_neg fun hc => h hc.symm]

/-- Evaluation of the concrete accepted run: `makeStep` with objective `fnA`
from `stateA` accepts the first trial step. -/
theorem runA_eq : makeStep fnA vOne1 mOne1 stateA 2 2 = some (.ok resA) := by
  norm_num [makeStep, trustLoop, trustIter, growRidge, subStep, initialRidge, vmin,
    List.ofFn_succ, vOne1, tmp1A, normSq, dot, Fin.sum_univ_one, stateA, fnA, mOne1,
    matVec, matTvec, resA]

/-- Evaluation of the concrete run with one rejection: `makeStep` with
objective `fnR` from `stateA` rejects the first trial step and accepts the
second. -/
theorem runR_eq : makeStep fnR vOne1 mOne1 stateA 3 3 = some (.ok resR) := by
  norm_num [makeStep, trustLoop, trustIter, growRidge, subStep, initialRidge, vmin,
    smallestNonzeroAbs, nextRidge, List.ofFn_succ, List.filter, vOne1, tmp1A, normSq, dot,
    Fin.sum_univ_one, stateA, fnR, mOne1, matVec, matTvec, resR]

/-- Evaluation of the first outer iteration of the `fnR` run: the trial step
is rejected and the trust radius is halved. -/
theorem iterR_eq : trustIter fnR vOne1 mOne1 tmp1A 3 stateA 0 = .rejected stateAhalf 0 := by
  norm_num [trustIter, growRidge, subStep, vOne1, tmp1A, normSq, dot, Fin.sum_univ_one,
    stateA, stateAhalf, fnR, mOne1, matVec]

/-- The inner ridge loop only breaks at a step whose squared radius is below
the squared trust radius, and the returned `tmp2` is the substep evaluated at
the returned ridge. -/
theorem growRidge_ok_spec {n : ℕ} (evals tmp1 : Vec n) (trust : ℚ) :
    ∀ (fuel : ℕ) (ridge tmp2 : _) (ridge2 : ℚ),
      growRidge evals tmp1 trust fuel ridge = some (.ok (tmp2, ridge2)) →
      subStep evals tmp1 ridge2 = some tmp2 ∧ normSq tmp2 < trust ^ 2 := by
  intro fuel
  induction fuel with
  | zero =>
    intro ridge tmp2 ridge2 h
    simp [growRidge] at h
  | succ fuel ih =>
    intro ridge tmp2 ridge2 h
    rw [growRidge] at h
    split at h
    · rename_i tmp2x hsub
      split at h
      · rename_i hlt
        simp only [Option.some.injEq, Except.ok.injEq, Prod.mk.injEq] at h
        obtain ⟨h1, h2⟩ := h
        subst h1
        subst h2
        exact ⟨hsub, hlt⟩
      · split at h
        · simp at h
        · exact ih _ tmp2 ridge2 h
    · split at h
      · simp at h
      · exact ih _ tmp2 ridge2 h

/-- A rejected outer iteration produces exactly the input state with the
trust radius halved. -/
theorem trustIter_rejected_eq {n : ℕ} (fn : Vec n → ℚ × Vec n) (evals : Vec n)
    (evecs : Mat n) (tmp1 : Vec n) (iF : ℕ) (s s2 : BFGSState n) (ridge ridge2 : ℚ)
    (h : trustIter fn evals evecs tmp1 iF s ridge = .rejected s2 ridge2) :
    s2 = { s with trust_radius := s.trust_radius * 0.5 } := by
  unfold trustIter at h
  split at h
  · simp at h
  · simp at h
  · split at h
    · rw [IterOutcome.rejected.injEq] at h
      exact h.1.symm
    · split at h
      · rw [IterOutcome.rejected.injEq] at h
        exact h.1.symm
      · simp at h

/-- An accepted outer iteration: the state comes back with the trust radius
grown by 1.2, the energy did not increase, and the accepted point is the
trial point of a step produced by the inner ridge loop with
`dot delta_x g ≤ 0`. -/
theorem trustIter_accepted_spec {n : ℕ} (fn : Vec n → ℚ × Vec n) (evals : Vec n)
    (evecs : Mat n) (tmp1 : Vec n) (iF : ℕ) (s : BFGSState n) (ridge : ℚ)
    (x : Vec n) (f : ℚ) (g : Vec n) (s2 : BFGSState n)
    (h : trustIter fn evals evecs tmp1 iF s ridge = .accepted x f g s2) :
    s2 = { s with trust_radius := s.trust_radius * 1.2 } ∧
    f - s.f_old ≤ 0 ∧
    ∃ (tmp2 : Vec n) (ridge2 : ℚ),
      growRidge evals tmp1 s.trust_radius iF ridge = some (.ok (tmp2, ridge2)) ∧
      x = (fun i => s.x_old i + matVec evecs tmp2 i) ∧
      f = (fn x).1 ∧ g = (fn x).2 ∧
      dot (matVec evecs tmp2) g ≤ 0 := by
  unfold trustIter at h
  split at h
  · simp at h
  · simp at h
  · rename_i tmp2 ridge2 hgrow
    split at h
    · simp at h
    · rename_i hc1
      split at h
      · simp at h
      · rename_i hc2
        rw [IterOutcome.accepted.injEq] at h
        obtain ⟨hx, hf, hg, hs⟩ := h
        subst hx
        subst hf
        subst hg
        refine ⟨hs.symm, ?_, tmp2, ridge2, hgrow, rfl, rfl, rfl, ?_⟩
        · rw [not_or] at hc1
          exact le_of_not_lt fun hlt => hc1.1 hlt
        · exact le_of_not_lt hc2

/-- Master invariant of the outer trust-radius loop: whatever `make_step`
returns was produced by an acceptance; the fields other than the trust radius
come back unchanged; the trust radius at acceptance is the starting one
halved once per rejection, and the final one is that times 1.2; the accepted
energy does not exceed `f_old`; `dot delta_x g ≤ 0`; and the returned point
is `x_old` plus an eigenbasis step whose squared radius was below the squared
trust radius at acceptance. -/
theorem trustLoop_ok_spec {n : ℕ} (fn : Vec n → ℚ × Vec n) (evals : Vec n)
    (evecs : Mat n) (tmp1 : Vec n) (iF : ℕ) :
    ∀ (fuel : ℕ) (s : BFGSState n) (ridge : ℚ) (nrej : ℕ) (r : MakeStepOut n),
      trustLoop fn evals evecs tmp1 iF fuel s ridge nrej = some (.ok r) →
      r.state.x_old = s.x_old ∧ r.state.f_old = s.f_old ∧ r.state.g_old = s.g_old ∧
      r.state.hessian = s.hessian ∧ r.state.small_radius = s.small_radius ∧
      nrej ≤ r.rejections ∧
      r.trust_accept = 0.5 ^ (r.rejections - nrej) * s.trust_radius ∧
      r.state.trust_radius = r.trust_accept * 1.2 ∧
      r.f ≤ s.f_old ∧
      dot (fun i => r.x i - s.x_old i) r.g ≤ 0 ∧
      ∃ (tmp2 : Vec n) (ridge2 : ℚ), subStep evals tmp1 ridge2 = some tmp2 ∧
        normSq tmp2 < r.trust_accept ^ 2 ∧
        ∀ i, r.x i = s.x_old i + matVec evecs tmp2 i := by
  intro fuel
  induction fuel with
  | zero =>
    intro s ridge nrej r h
    simp [trustLoop] at h
  | succ fuel ih =>
    intro s ridge nrej r h
    rw [trustLoop] at h
    split at h
    · -- the iteration accepted: the loop returns
      rename_i x f g s2 hit
      obtain ⟨hs2, hf, tmp2, ridge2, hgrow, hx, hfe, hge, hdot⟩ :=
        trustIter_accepted_spec fn evals evecs tmp1 iF s ridge x f g s2 hit
      simp only [Option.some.injEq, Except.ok.injEq] at h
      subst h
      subst hs2
      obtain ⟨hsub, hlt⟩ := growRidge_ok_spec evals tmp1 s.trust_radius iF ridge tmp2 ridge2 hgrow
      refine ⟨rfl, rfl, rfl, rfl, rfl, le_refl nrej, ?_, rfl, sub_nonpos.mp hf, ?_,
        tmp2, ridge2, hsub, hlt, ?_⟩
      · simp
      · have hd : (fun i => x i - s.x_old i) = matVec evecs tmp2 := by
          subst hx
          funext i
          simp
        simpa [hd] using hdot
      · intro i
        rw [hx]
    · -- the iteration rejected: the loop retries on the halved state
      rename_i s2 ridge2 hit
      have hs2 := trustIter_rejected_eq fn evals evecs tmp1 iF s s2 ridge ridge2 hit
      subst hs2
      obtain ⟨h1, h2, h3, h4, h5, h6, h7, h8, h9, h10, tmp2, ridge3, hsub, hlt, hx⟩ :=
        ih _ _ _ _ h
      have h6b : nrej ≤ r.rejections := Nat.le_of_succ_le h6
      refine ⟨h1, h2, h3, h4, h5, h6b, ?_, h8, h9, h10, tmp2, ridge3, hsub, hlt, hx⟩
      have hdiff : r.rejections - nrej = (r.rejections - (nrej + 1)) + 1 := by omega
      rw [hdiff, pow_succ, h7]
      show _ = 0.5 ^ (r.rejections - (nrej + 1)) * 0.5 * s.trust_radius
      ring
    · simp at h
    · simp at h

/-- For a matrix with orthonormal columns (as returned by `np.linalg.eigh`),
mapping a vector back from the eigenbasis preserves the squared norm. -/
theorem normSq_matVec_orth {n : ℕ} (V : Mat n)
    (hV : ∀ j k, (∑ i, V i j * V i k) = if j = k then (1 : ℚ) else 0) (q : Vec n) :
    normSq (matVec V q) = normSq q := by
  unfold normSq dot matVec
  calc (∑ i, (∑ j, V i j * q j) * (∑ k, V i k * q k))
      = ∑ i, ∑ j, ∑ k, (q j * q k) * (V i j * V i k) := by
        refine Finset.sum_congr rfl fun i _ => ?_
        rw [Finset.sum_mul_sum]
        exact Finset.sum_congr rfl fun j _ => Finset.sum_congr rfl fun k _ => by ring
    _ = ∑ j, ∑ i, ∑ k, (q j * q k) * (V i j * V i k) := Finset.sum_comm
    _ = ∑ j, ∑ k, ∑ i, (q j * q k) * (V i j * V i k) :=
        Finset.sum_congr rfl fun j _ => Finset.sum_comm
    _ = ∑ j, ∑ k, (q j * q k) * ∑ i, V i j * V i k := by
        refine Finset.sum_congr rfl fun j _ => Finset.sum_congr rfl fun k _ => ?_
        rw [Finset.mul_sum]
    _ = ∑ j, ∑ k, (q j * q k) * (if j = k then (1 : ℚ) else 0) := by
        refine Finset.sum_congr rfl fun j _ => Finset.sum_congr rfl fun k _ => ?_
        rw [hV j k]
    _ = ∑ j, q j * q j := by
        refine Finset.sum_congr rfl fun j _ => ?_
        simp [mul_ite, Finset.sum_ite_eq]

/-- C1: For every step returned by `BFGSOptimizer.make_step` (an accepted
step), either the new energy satisfies `f ≤ f_old`, or the trust radius at
the acceptance test is below `small_radius` and the new gradient norm is
below the old one (stated on squared norms); and in every case the returned
step satisfies `dot delta_x g ≤ 0` with `delta_x = x - x_old`. -/
theorem accepted_step_energy_or_grad_decrease {n : ℕ} (fn : Vec n → ℚ × Vec n)
    (evals : Vec n) (evecs : Mat n) (s : BFGSState n) (iF oF : ℕ) (r : MakeStepOut n)
    (h : makeStep fn evals evecs s iF oF = some (.ok r)) :
    (r.f ≤ s.f_old ∨
      (r.trust_accept < s.small_radius ∧ normSq r.g < normSq s.g_old)) ∧
    dot (fun i => r.x i - s.x_old i) r.g ≤ 0 := by
  unfold makeStep at h
  obtain ⟨_, _, _, _, _, _, _, _, h9, h10, _⟩ :=
    trustLoop_ok_spec fn evals evecs (fun i => -matTvec evecs s.g_old i) iF oF s
      (initialRidge evals) 0 r h
  exact ⟨Or.inl h9, h10⟩

/-- C2: the Hessian model is initialized to the identity, which is symmetric,
and every `BFGSHessianModel.update` maps an exactly symmetric matrix to an
exactly symmetric matrix, so symmetry is an invariant. -/
theorem hessian_symm_invariant (n : ℕ) :
    IsSymmMat (identityMat n) ∧
    ∀ (H : Mat n) (dx dg : Vec n), IsSymmMat H → IsSymmMat (update H dx dg) := by
  refine ⟨identityMat_isSymm n, ?_⟩
  intro H dx dg hs i j
  unfold update
  by_cases hc1 : hmax H * dot dx (matVec H dx) ≤ 1e-5 * amax (matVec H dx)
  · rw [if_pos hc1]
    exact hs i j
  · rw [if_neg hc1]
    by_cases hc2 : hmax H * dot dg dx ≤ 1e-5 * amax dg
    · rw [if_pos hc2]
      exact hs i j
    · rw [if_neg hc2]
      rw [hs i j]
      ring

/-- C3: `BFGSHessianModel.update` leaves the stored matrix completely
unchanged if either denominator gate fires (`hmax*denom1 ≤ 1e-5*max|Hdx|` or
`hmax*denom2 ≤ 1e-5*max|dg|`), and otherwise replaces it by
`H - (Hdx ⊗ Hdx)/denom1 + (dg ⊗ dg)/denom2`. -/
theorem hessian_update_frame {n : ℕ} (H : Mat n) (dx dg : Vec n) :
    ((hmax H * dot dx (matVec H dx) ≤ 1e-5 * amax (matVec H dx) ∨
      hmax H * dot dg dx ≤ 1e-5 * amax dg) → update H dx dg = H) ∧
    (¬ hmax H * dot dx (matVec H dx) ≤ 1e-5 * amax (matVec H dx) →
      ¬ hmax H * dot dg dx ≤ 1e-5 * amax dg →
      update H dx dg = fun i j =>
        H i j - matVec H dx i * matVec H dx j / dot dx (matVec H dx)
          + dg i * dg j / dot dg dx) := by
  constructor
  · rintro (h1 | h2)
    · unfold update
      rw [if_pos h1]
    · unfold update
      by_cases h1 : hmax H * dot dx (matVec H dx) ≤ 1e-5 * amax (matVec H dx)
      · rw [if_pos h1]
      · rw [if_neg h1, if_pos h2]
  · intro h1 h2
    unfold update
    rw [if_neg h1, if_neg h2]

/-- C4: `make_step` uses the eigenbasis projection `tmp1 = -evecs.T @ g_old`
and the initial ridge `1.1*|min eval|` when `min eval ≤ 0` (else 0); the
eigenbasis step is `tmp1*evals/(evals^2 + ridge^2)`; and while the candidate
squared radius is not below the squared trust radius the ridge is grown: to
the smallest nonzero `|eigenvalue|` when it is exactly 0, otherwise by the
factor 1.2. -/
theorem ridge_step_formulas {n : ℕ} (fn : Vec n → ℚ × Vec n) (evals tmp1 : Vec n)
    (evecs : Mat n) (s : BFGSState n) (iF oF fuel : ℕ) (ridge trust : ℚ) (tmp2 : Vec n) :
    (makeStep fn evals evecs s iF oF =
      trustLoop fn evals evecs (fun i => -matTvec evecs s.g_old i) iF oF s
        (initialRidge evals) 0) ∧
    (vmin evals ≤ 0 → initialRidge evals = 1.1 * |vmin evals|) ∧
    (¬ vmin evals ≤ 0 → initialRidge evals = 0) ∧
    ((∀ i, evals i ^ 2 + ridge ^ 2 ≠ 0) →
      subStep evals tmp1 ridge =
        some fun i => tmp1 i * evals i / (evals i ^ 2 + ridge ^ 2)) ∧
    (subStep evals tmp1 ridge = some tmp2 → ¬ normSq tmp2 < trust ^ 2 →
      growRidge evals tmp1 trust (fuel + 1) ridge =
        match nextRidge evals ridge with
        | .error e => some (.error e)
        | .ok r => growRidge evals tmp1 trust fuel r) ∧
    (ridge = 0 → nextRidge evals ridge =
        match smallestNonzeroAbs evals with
        | none => Except.error Crash.emptyEigMin
        | some r => Except.ok r) ∧
    (ridge ≠ 0 → nextRidge evals ridge = .ok (ridge * 1.2)) := by
  refine ⟨rfl, ?_, ?_, ?_, ?_, ?_, ?_⟩
  · intro hm
    unfold initialRidge
    rw [if_pos hm, mul_comm]
  · intro hm
    unfold initialRidge
    rw [if_neg hm]
  · intro hd
    unfold subStep
    rw [if_pos hd]
  · intro hsub hge
    rw [growRidge]
    simp only [hsub]
    rw [if_neg hge]
  · intro hr
    unfold nextRidge
    rw [if_pos hr]
  · intro hr
    unfold nextRidge
    rw [if_neg hr]

/-- C5: for every accepted step the squared norm of the returned coordinate
step `delta_x = x - x_old` is strictly below the square of the trust radius
in effect at the moment of acceptance (which is strictly positive), provided
the eigenvector matrix has orthonormal columns (as `np.linalg.eigh`
guarantees) and the starting trust radius is positive.  On nonnegative
quantities this is exactly the strict inequality `norm delta_x <
trust_radius`. -/
theorem accepted_step_norm_lt_trust {n : ℕ} (fn : Vec n → ℚ × Vec n)
    (evals : Vec n) (evecs : Mat n) (s : BFGSState n) (iF oF : ℕ) (r : MakeStepOut n)
    (hV : ∀ j k, (∑ i, evecs i j * evecs i k) = if j = k then (1 : ℚ) else 0)
    (h : makeStep fn evals evecs s iF oF = some (.ok r))
    (hpos : 0 < s.trust_radius) :
    0 < r.trust_accept ∧
    normSq (fun i => r.x i - s.x_old i) < r.trust_accept ^ 2 := by
  unfold makeStep at h
  obtain ⟨_, _, _, _, _, _, h7, _, _, _, tmp2, ridge2, _, hlt, hx⟩ :=
    trustLoop_ok_spec fn evals evecs (fun i => -matTvec evecs s.g_old i) iF oF s
      (initialRidge evals) 0 r h
  constructor
  · rw [h7]
    exact mul_pos (pow_pos (by norm_num) _) hpos
  · have hd : (fun i => r.x i - s.x_old i) = matVec evecs tmp2 := by
      funext i
      rw [hx i]
      ring
    rw [hd, normSq_matVec_orth evecs hV tmp2]
    exact hlt

/-- C6 (amended): the trust radius after an accepted step equals 1.2 times
its value at the moment of acceptance, and after N rejections within the
call the value at acceptance is `0.5^N` times the value at the start of the
`make_step` call (so the final value is `1.2 * 0.5^N` times the starting
one). -/
theorem trust_radius_bookkeeping {n : ℕ} (fn : Vec n → ℚ × Vec n)
    (evals : Vec n) (evecs : Mat n) (s : BFGSState n) (iF oF : ℕ) (r : MakeStepOut n)
    (h : makeStep fn evals evecs s iF oF = some (.ok r)) :
    r.state.trust_radius = r.trust_accept * 1.2 ∧
    r.trust_accept = 0.5 ^ r.rejections * s.trust_radius := by
  unfold makeStep at h
  obtain ⟨_, _, _, _, _, _, h7, h8, _, _, _⟩ :=
    trustLoop_ok_spec fn evals evecs (fun i => -matTvec evecs s.g_old i) iF oF s
      (initialRidge evals) 0 r h
  refine ⟨h8, ?_⟩
  simpa using h7

/-- C6 counterexample: a `make_step` call from trust radius 1 that rejects
once and then accepts returns with trust radius `1 * 0.5 * 1.2 = 0.6`, which
is not `1.2` times the starting value. -/
theorem trust_after_accept_not_always_growth :
    makeStep fnR vOne1 mOne1 stateA 3 3 = some (.ok resR) ∧
    1 ≤ resR.rejections ∧
    resR.state.trust_radius ≠ 1.2 * stateA.trust_radius := by
  refine ⟨runR_eq, ?_, ?_⟩
  · norm_num [resR]
  · norm_num [resR, stateA]

/-- C7: a rejected trial step multiplies the trust radius by exactly 0.5 and
leaves `x_old`, `f_old`, `g_old`, the Hessian model and `small_radius`
unchanged; the loop then retries (a rejection never returns); and it is the
roll in `BFGSOptimizer.propagate` that moves the accepted point into the old
fields. -/
theorem rejection_halves_trust_and_preserves_state {n : ℕ} (fn : Vec n → ℚ × Vec n)
    (evals : Vec n) (evecs : Mat n) (tmp1 : Vec n) (iF : ℕ)
    (s s2 : BFGSState n) (ridge ridge2 : ℚ)
    (h : trustIter fn evals evecs tmp1 iF s ridge = .rejected s2 ridge2) :
    s2.trust_radius = s.trust_radius * 0.5 ∧
    s2.x_old = s.x_old ∧ s2.f_old = s.f_old ∧ s2.g_old = s.g_old ∧
    s2.hessian = s.hessian ∧ s2.small_radius = s.small_radius ∧
    (∀ (fuel nrej : ℕ), trustLoop fn evals evecs tmp1 iF (fuel + 1) s ridge nrej =
      trustLoop fn evals evecs tmp1 iF fuel s2 ridge2 (nrej + 1)) ∧
    (∀ (s3 : BFGSState n) (x : Vec n) (f : ℚ) (g : Vec n),
      (bfgsPropagateUpdate s3 x f g).x_old = x ∧
      (bfgsPropagateUpdate s3 x f g).f_old = f ∧
      (bfgsPropagateUpdate s3 x f g).g_old = g) := by
  have hs2 := trustIter_rejected_eq fn evals evecs tmp1 iF s s2 ridge ridge2 h
  subst hs2
  refine ⟨rfl, rfl, rfl, rfl, rfl, rfl, ?_, ?_⟩
  · intro fuel nrej
    rw [trustLoop, h]
  · intro s3 x f g
    exact ⟨rfl, rfl, rfl⟩

/-- C8: when the external minimizer reports failure, `CGOptimizer.propagate`
returns `True` (stop) immediately: the convergence refresh of
`BaseOptimizer.propagate` does not run (ghost flag `false`) and no retry
happens; the state holds the minimizer iterate. -/
theorem cg_propagate_failure_terminates {n : ℕ} (s : CGState n) (minimizer_x : Vec n)
    (basePropagate : CGState n → CGState n × Bool) :
    cgPropagate s false minimizer_x basePropagate =
      ({ s with x := minimizer_x }, true, false) := rfl

/-- C9: the code path taken by `make_step` when every eigenvalue is exactly
zero: the zero denominators poison the radius, the radius test fails, the
ridge is still exactly 0, and `abs(evals[evals!=0.0]).min()` is evaluated on
an empty selection — an unhandled `ValueError`, modelled by
`Crash.emptyEigMin`.  The call crashes instead of reporting a fatal
numerical failure. -/
theorem make_step_crashes_on_all_zero_eigenvalues :
    makeStep fnA vZero1 mOne1 stateZ 2 2 = some (.error Crash.emptyEigMin) := by
  norm_num [makeStep, trustLoop, trustIter, growRidge, subStep, initialRidge, vmin,
    smallestNonzeroAbs, nextRidge, List.ofFn_succ, List.filter, vZero1, normSq, dot,
    Fin.sum_univ_one, stateZ, stateA, fnA, mOne1, matVec, matTvec]

/-- C10: `CGOptimizer.propagate` writes the external minimizer iterate into
`self.x` before examining the success flag, so on failure the state already
holds the minimizer iterate — the pre-failure coordinates are not
preserved. -/
theorem cg_propagate_overwrites_x_on_failure {n : ℕ} (s : CGState n) (minimizer_x : Vec n)
    (basePropagate : CGState n → CGState n × Bool) :
    ((cgPropagate s false minimizer_x basePropagate).1).x = minimizer_x := rfl

/-- The substep of the concrete run at ridge 0. -/
theorem subStep_A_eq : subStep vOne1 tmp1A 0 = some tmp1A := by
  norm_num [subStep, vOne1, tmp1A]
  rfl

theorem accepted_step_energy_or_grad_decrease_witness :
    (resA.f ≤ stateA.f_old ∨
      (resA.trust_accept < stateA.small_radius ∧ normSq resA.g < normSq stateA.g_old)) ∧
    dot (fun i => resA.x i - stateA.x_old i) resA.g ≤ 0 :=
  accepted_step_energy_or_grad_decrease fnA vOne1 mOne1 stateA 2 2 resA runA_eq

theorem hessian_symm_invariant_witness :
    IsSymmMat (update (identityMat 2) dx2 dg2) :=
  (hessian_symm_invariant 2).2 (identityMat 2) dx2 dg2 (hessian_symm_invariant 2).1

theorem hessian_update_frame_witness :
    update (identityMat 1) dxZero1 dgThree1 = identityMat 1 ∧
    update (identityMat 1) dxTwo1 dgThree1 = fun i j =>
      identityMat 1 i j
        - matVec (identityMat 1) dxTwo1 i * matVec (identityMat 1) dxTwo1 j /
            dot dxTwo1 (matVec (identityMat 1) dxTwo1)
        + dgThree1 i * dgThree1 j / dot dgThree1 dxTwo1 :=
  ⟨(hessian_update_frame (identityMat 1) dxZero1 dgThree1).1 (Or.inl (by
      norm_num [hmax, amax, dot, matVec, identityMat, dxZero1, dgThree1,
        List.ofFn_succ, Fin.sum_univ_one])),
   (hessian_update_frame (identityMat 1) dxTwo1 dgThree1).2
     (by norm_num [hmax, amax, dot, matVec, identityMat, dxTwo1, dgThree1,
        List.ofFn_succ, Fin.sum_univ_one])
     (by norm_num [hmax, amax, dot, matVec, identityMat, dxTwo1, dgThree1,
        List.ofFn_succ, Fin.sum_univ_one])⟩

theorem ridge_step_formulas_witness :
    initialRidge vNegTwo1 = 1.1 * |vmin vNegTwo1| ∧
    initialRidge vOne1 = 0 ∧
    subStep vOne1 tmp1A 0 =
      some (fun i => tmp1A i * vOne1 i / (vOne1 i ^ 2 + (0 : ℚ) ^ 2)) ∧
    growRidge vOne1 tmp1A (1/2) 2 0 =
      (match nextRidge vOne1 0 with
       | .error e => some (.error e)
       | .ok r => growRidge vOne1 tmp1A (1/2) 1 r) ∧
    nextRidge vOne1 0 =
      (match smallestNonzeroAbs vOne1 with
       | none => Except.error Crash.emptyEigMin
       | some r => Except.ok r) ∧
    nextRidge vOne1 (1 : ℚ) = .ok (1 * 1.2) :=
  ⟨(ridge_step_formulas fnA vNegTwo1 tmp1A mOne1 stateA 2 2 1 0 (1/2) tmp1A).2.1
      (by norm_num [vmin, vNegTwo1, List.ofFn_succ]),
   (ridge_step_formulas fnA vOne1 tmp1A mOne1 stateA 2 2 1 0 (1/2) tmp1A).2.2.1
      (by norm_num [vmin, vOne1, List.ofFn_succ]),
   (ridge_step_formulas fnA vOne1 tmp1A mOne1 stateA 2 2 1 0 (1/2) tmp1A).2.2.2.1
      (by intro i; norm_num [vOne1]),
   (ridge_step_formulas fnA vOne1 tmp1A mOne1 stateA 2 2 1 0 (1/2) tmp1A).2.2.2.2.1
      subStep_A_eq
      (by norm_num [normSq, dot, tmp1A, Fin.sum_univ_one]),
   (ridge_step_formulas fnA vOne1 tmp1A mOne1 stateA 2 2 1 0 (1/2) tmp1A).2.2.2.2.2.1
      rfl,
   (ridge_step_formulas fnA vOne1 tmp1A mOne1 stateA 2 2 1 1 (1/2) tmp1A).2.2.2.2.2.2
      (by norm_num)⟩

theorem accepted_step_norm_lt_trust_witness :
    0 < resA.trust_accept ∧
    normSq (fun i => resA.x i - stateA.x_old i) < resA.trust_accept ^ 2 :=
  accepted_step_norm_lt_trust fnA vOne1 mOne1 stateA 2 2 resA
    (by
      intro j k
      fin_cases j
      fin_cases k
      norm_num [mOne1, Fin.sum_univ_one])
    runA_eq
    (by norm_num [stateA])

theorem trust_radius_bookkeeping_witness :
    resR.state.trust_radius = resR.trust_accept * 1.2 ∧
    resR.trust_accept = 0.5 ^ resR.rejections * stateA.trust_radius :=
  trust_radius_bookkeeping fnR vOne1 mOne1 stateA 3 3 resR runR_eq

theorem rejection_halves_trust_and_preserves_state_witness :
    stateAhalf.trust_radius = stateA.trust_radius * 0.5 ∧
    stateAhalf.x_old = stateA.x_old ∧ stateAhalf.f_old = stateA.f_old ∧
    stateAhalf.g_old = stateA.g_old ∧ stateAhalf.hessian = stateA.hessian ∧
    stateAhalf.small_radius = stateA.small_radius ∧
    (∀ (fuel nrej : ℕ), trustLoop fnR vOne1 mOne1 tmp1A 3 (fuel + 1) stateA 0 nrej =
      trustLoop fnR vOne1 mOne1 tmp1A 3 fuel stateAhalf 0 (nrej + 1)) ∧
    (∀ (s3 : BFGSState 1) (x : Vec 1) (f : ℚ) (g : Vec 1),
      (bfgsPropagateUpdate s3 x f g).x_old = x ∧
      (bfgsPropagateUpdate s3 x f g).f_old = f ∧
      (bfgsPropagateUpdate s3 x f g).g_old = g) :=
  rejection_halves_trust_and_preserves_state fnR vOne1 mOne1 tmp1A 3 stateA stateAhalf
    0 0 iterR_eq

end YaffOpt
